import Mathlib

/-!
Verification development for the skill-loading / tool-dispatch state machine
and the streaming conversation loop of the agent controller (src/agent.py,
src/main.py).  Python strings are modelled as lists of characters (`PyStr`);
Python exceptions are modelled by an explicit kind plus message record and
either caught (turned into result text) or propagated (`Except`/`Option`
failure values).  Backend processes, the JSON parser and the summarization
endpoint are external collaborators and are modelled as oracle functions
supplied through an `Env` record.
-/

namespace AgentDs

/-- Python `str` is modelled as a list of characters. -/
abbrev PyStr := List Char

/-- Literal conversion helper. -/
def str (s : String) : PyStr := s.toList

/-- The whitespace characters stripped by Python `str.strip()`. -/
def isPySpace (c : Char) : Bool :=
  c = ' ' || c = '\t' || c = '\n' || c = '\r' || c = '\x0b' || c = '\x0c'

/-- Python `str.strip()`: drop leading and trailing whitespace. -/
def lcStrip (s : PyStr) : PyStr :=
  ((s.dropWhile isPySpace).reverse.dropWhile isPySpace).reverse

/-- Split on a single separator character, keeping empty pieces
(the behaviour of Python `str.split(sep)` for a one-character separator). -/
def splitOnChar (sep : Char) : PyStr → List PyStr
  | [] => [[]]
  | c :: rest =>
    if c = sep then [] :: splitOnChar sep rest
    else
      match splitOnChar sep rest with
      | [] => [[c]]
      | h :: t => (c :: h) :: t

/-- Python `str.splitlines()` restricted to newline separators: like
`splitOnChar` but yielding no pieces for the empty string and no trailing
empty piece when the string ends in a newline. -/
def lcLines (s : PyStr) : List PyStr :=
  if s = [] then []
  else if s.getLast? = some '\n' then (splitOnChar '\n' s).dropLast
  else splitOnChar '\n' s

/-- Python `pat in s` substring test. -/
def lcContains (pat : PyStr) : PyStr → Bool
  | [] => pat.isPrefixOf ([] : PyStr)
  | c :: rest => pat.isPrefixOf (c :: rest) || lcContains pat rest

/-- Split at the first occurrence of `pat`, returning the text before the
occurrence and the text after it; `none` when `pat` does not occur.
This is the single step of Python `str.split(pat, maxsplit)`. -/
def lcSplitFirst (pat : PyStr) : PyStr → Option (PyStr × PyStr)
  | [] => if pat.isPrefixOf ([] : PyStr) then some ([], []) else none
  | c :: rest =>
    if pat.isPrefixOf (c :: rest) then some ([], (c :: rest).drop pat.length)
    else (lcSplitFirst pat rest).map (fun p => (c :: p.1, p.2))

/-- Python `content.split(pat, 2)` unpacked into exactly three pieces,
as in `_, frontmatter, _ = content.split("---", 2)`.  When the pattern
occurs fewer than twice the unpacking raises `ValueError`, modelled by
`none`. -/
def pySplit3 (pat s : PyStr) : Option (PyStr × PyStr × PyStr) := do
  let p1 ← lcSplitFirst pat s
  let p2 ← lcSplitFirst pat p1.2
  some (p1.1, p2.1, p2.2)

/-- Python `line.split(":", 1)[1]`: the text after the first colon. -/
def afterFirstColon (s : PyStr) : Option PyStr :=
  (lcSplitFirst (str ":") s).map (fun p => p.2)

deriving instance DecidableEq for Except

/-- The disclosure-operation name pattern `"skill_"`. -/
def skillPat : PyStr := str "skill_"

/-- Python `tool_name.replace("skill_", "")`: remove every (left-to-right,
non-overlapping) occurrence of the substring `skill_`.  The six-character
pattern is matched structurally so that the function reduces in the
kernel: the first arm fires exactly when `"skill_"` is a prefix of the
remaining text, in which case the scan resumes after the pattern, and
otherwise one character is kept and the scan advances. -/
def stripSkillOccurrences : PyStr → PyStr
  | 's' :: 'k' :: 'i' :: 'l' :: 'l' :: '_' :: rest => stripSkillOccurrences rest
  | c :: rest => c :: stripSkillOccurrences rest
  | [] => []

/-! ## Exceptions and external collaborators -/

/-- The Python exception classes that play a role in the dispatch and turn
loop: the classes named in the `except` clauses of `agent.py` / `main.py`,
plus representatives (`valueError`, `otherExc`) for every class not named
there. -/
inductive ExcKind where
  | runtimeError
  | keyError
  | osError
  | connectionError
  | jsonDecodeError
  | openAIError
  | valueError
  | otherExc
deriving DecidableEq, Repr

/-- A raised Python exception: its class and its `str(e)` message. -/
structure PyExc where
  kind : ExcKind
  msg : PyStr
deriving DecidableEq, Repr

/-- One entry of `call_result.content` returned by a backend
(`content.type` and `content.text`). -/
structure ContentItem where
  ctype : PyStr
  text : PyStr
deriving DecidableEq, Repr

/-- A model-facing tool parameter schema.  The loader tools use the empty
object schema; backend-provided `inputSchema` values are arbitrary. -/
structure ParamSchema where
  properties : List (PyStr × PyStr)
  required : List PyStr
deriving DecidableEq, Repr

/-- One model-facing tool definition (the `"function"` part of the dict
built in `connect_server` / `get_loader_tool_def`). -/
structure ToolDef where
  name : PyStr
  description : PyStr
  parameters : ParamSchema
deriving DecidableEq, Repr

/-- `MCPSkillConfig`: static launch metadata for one skill. -/
structure SkillConfig where
  name : PyStr
  command : PyStr
  args : List PyStr
deriving DecidableEq, Repr

/-- The capability document of a skill, jointly modelling
`config.skill_md_path` and the filesystem read in `_load_metadata`:
either the path is `None`, or the file does not exist, or it exists
with the given full text. -/
inductive SkillDoc where
  | noPath
  | missingFile
  | present (content : PyStr)
deriving DecidableEq, Repr

/-- `MCPSkillWrapper._load_metadata`: computes `(_description,
_full_instructions)` from the capability document.  `_full_instructions`
is set to the whole document text.  The description is extracted from the
front-matter `description:` line; when the document starts with `---` but
contains no second `---`, the triple unpacking of `content.split("---", 2)`
raises `ValueError`, modelled by `none`. -/
def loadMetadata (name : PyStr) (doc : SkillDoc) : Option (PyStr × PyStr) :=
  match doc with
  | .noPath => some (str "Tools for " ++ name, str "Tools for " ++ name)
  | .missingFile => some (str "Tools for " ++ name, str "Tools for " ++ name)
  | .present content =>
    if (str "---").isPrefixOf content then
      match pySplit3 (str "---") content with
      | none => none
      | some (_, frontmatter, _) =>
        let desc := descFromFrontmatter (lcLines frontmatter)
        some ((if desc = [] then str "Tools for " ++ name else desc), content)
    else
      some (str "Tools for " ++ name, content)
where
  /-- The `for line in frontmatter.splitlines()` scan: the stripped text
  after the first colon of the first line whose stripped form starts with
  `description:`, or the empty string. -/
  descFromFrontmatter : List PyStr → PyStr
    | [] => []
    | line :: rest =>
      if (str "description:").isPrefixOf (lcStrip line) then
        match afterFirstColon line with
        | some tail => lcStrip tail
        | none => []
      else descFromFrontmatter rest

/-- `MCPSkillWrapper`: per-skill runtime state.  `session` records whether
a live `ClientSession` is attached. -/
structure Skill where
  config : SkillConfig
  loaded : Bool
  session : Bool
  toolsCache : List ToolDef
  descriptionStr : PyStr
  fullInstructions : PyStr
deriving DecidableEq, Repr

/-- Constructing an `MCPSkillWrapper` around a config and its capability
document; `none` when `_load_metadata` raises. -/
def mkSkillWrapper (config : SkillConfig) (doc : SkillDoc) : Option Skill :=
  (loadMetadata config.name doc).map (fun p =>
    { config := config, loaded := false, session := false, toolsCache := [],
      descriptionStr := p.1, fullInstructions := p.2 })

/-- The line filter inside `get_loader_tool_def`: drop `---` lines and
front-matter keys, stop at the first stripped `##` heading containing
`Tool` or `工具`. -/
def loaderContextLines : List PyStr → List PyStr
  | [] => []
  | line :: rest =>
    if lcStrip line = str "---" then loaderContextLines rest
    else if (str "name:").isPrefixOf (lcStrip line)
        || (str "description:").isPrefixOf (lcStrip line)
        || (str "allowed-tools:").isPrefixOf (lcStrip line) then
      loaderContextLines rest
    else if (str "##").isPrefixOf (lcStrip line)
        && (lcContains (str "Tool") line || lcContains (str "工具") line) then
      []
    else line :: loaderContextLines rest

/-- `MCPSkillWrapper.get_loader_tool_def`: the synthetic disclosure
operation for an unloaded skill, named `skill_<name>` with the empty
object parameter schema. -/
def getLoaderToolDef (sk : Skill) : ToolDef :=
  let ctx0 := lcStrip (List.intercalate (str "\n")
    (loaderContextLines (splitOnChar '\n' sk.fullInstructions)))
  let loadingContext := if ctx0.length < 10 then sk.descriptionStr else ctx0
  { name := str "skill_" ++ sk.config.name,
    description := str "Load " ++ sk.config.name ++ str " capabilities.\n" ++ loadingContext,
    parameters := { properties := [], required := [] } }

/-- Outcome of one attempt to launch and initialize a backend connection
(`stdio_client` / `ClientSession` / `initialize` / `list_tools`):
either a working session together with the backend tool list, or an
exception raised at some point of the `try` block.  `afterSession` tells
whether `wrapper.session` had already been assigned when the exception was
raised (in which case the tools cached so far, `cachedTools`, remain). -/
inductive ConnectOutcome where
  | success (tools : List ToolDef)
  | failAt (afterSession : Bool) (cachedTools : List ToolDef) (e : PyExc)
deriving DecidableEq, Repr

/-- Outcome of `session.call_tool(tool_name, arguments)` on a backend. -/
inductive CallOutcome where
  | success (content : List ContentItem)
  | raised (e : PyExc)
deriving DecidableEq, Repr

/-- Parsed JSON arguments are opaque to the core; a list of key/value
pairs is enough structure for the claims. -/
abbrev Args := List (PyStr × PyStr)

/-- The external collaborators of the dispatch machinery: connection
attempts keyed by skill name, backend invocation keyed by skill name,
tool name and arguments, and the JSON argument parser (`json.loads`),
which either returns parsed arguments or raises. -/
structure Env where
  connect : PyStr → ConnectOutcome
  callBackend : PyStr → PyStr → Args → CallOutcome
  jsonParse : PyStr → Except PyExc Args

/-- The exception classes caught by `connect_server`
(`except (OSError, RuntimeError, ConnectionError)`). -/
def caughtByConnect (k : ExcKind) : Bool :=
  k = .osError || k = .runtimeError || k = .connectionError

/-- `DeepSeekMCPAgent.connect_server`: a no-op when a session is already
attached; otherwise one connection attempt.  A caught exception leaves
the registry operating (result exception `none`); any other exception
propagates while the mutations made before it persist. -/
def connectServer (env : Env) (sk : Skill) : Skill × Option PyExc :=
  if sk.session then (sk, none)
  else
    match env.connect sk.config.name with
    | .success tools =>
      ({ sk with session := true, toolsCache := sk.toolsCache ++ tools }, none)
    | .failAt afterSession cachedTools e =>
      let sk1 := if afterSession then
          { sk with session := true, toolsCache := sk.toolsCache ++ cachedTools }
        else sk
      if caughtByConnect e.kind then (sk1, none) else (sk1, some e)

/-- `DeepSeekMCPAgent.list_tools`: walk the registry in order; an unloaded
skill contributes its loader tool, a loaded skill is connected if needed
and contributes its tools cache.  A propagated connection exception aborts
the walk with the mutations so far. -/
def listToolsSt (env : Env) : List Skill → List Skill × Except PyExc (List ToolDef)
  | [] => ([], .ok [])
  | sk :: rest =>
    if !sk.loaded then
      let r := listToolsSt env rest
      (sk :: r.1, r.2.map (fun ts => getLoaderToolDef sk :: ts))
    else
      let c := if !sk.session then connectServer env sk else (sk, none)
      match c.2 with
      | some e => (c.1 :: rest, .error e)
      | none =>
        let r := listToolsSt env rest
        (c.1 :: r.1, r.2.map (fun ts => c.1.toolsCache ++ ts))

/-- The loader branch of `call_tool`: scan the registry for the skill
whose name equals the stripped tool name; on the first match set
`loaded = True`, connect eagerly and return `_full_instructions`
(a propagated connection exception keeps the mutations made so far);
on a miss return the not-found error text with the registry unchanged. -/
def loaderDispatch (env : Env) : List Skill → PyStr → List Skill × Except PyExc PyStr
  | [], skillName =>
    ([], .ok (str "Error: Skill \x27" ++ skillName ++ str "\x27 not found."))
  | sk :: rest, skillName =>
    if sk.config.name = skillName then
      let c := connectServer env { sk with loaded := true }
      match c.2 with
      | none => (c.1 :: rest, .ok c.1.fullInstructions)
      | some e => (c.1 :: rest, .error e)
    else
      let r := loaderDispatch env rest skillName
      (sk :: r.1, r.2)

/-- `"\n".join` of the text of the content items whose type is `"text"`. -/
def joinTextContent (content : List ContentItem) : PyStr :=
  List.intercalate (str "\n")
    ((content.filter (fun c => c.ctype = str "text")).map ContentItem.text)

/-- The exception classes caught around `session.call_tool`
(`except (RuntimeError, KeyError)`). -/
def caughtByCallTool (k : ExcKind) : Bool :=
  k = .runtimeError || k = .keyError

/-- The MCP branch of `call_tool`: scan loaded, connected skills for the
first one whose tools cache contains the tool name, and invoke it through
that session.  `none` means no loaded skill owns the tool.  A caught
backend exception becomes an error string; any other exception
propagates. -/
def callToolMCP (env : Env) : List Skill → PyStr → Args → Option (Except PyExc PyStr)
  | [], _, _ => none
  | sk :: rest, toolName, arguments =>
    if sk.loaded && sk.session
        && (sk.toolsCache.any (fun t => t.name = toolName)) then
      match env.callBackend sk.config.name toolName arguments with
      | .success content => some (.ok (joinTextContent content))
      | .raised e =>
        if caughtByCallTool e.kind then
          some (.ok (str "Error executing " ++ toolName ++ str ": " ++ e.msg))
        else
          some (.error e)
    else
      callToolMCP env rest toolName arguments

/-- `DeepSeekMCPAgent.call_tool`: names starting with `skill_` are routed
to the loader branch under the name with every `skill_` occurrence
removed; everything else is scanned over loaded skills, and a full miss
yields the not-found error text. -/
def callTool (env : Env) (skills : List Skill) (toolName : PyStr) (arguments : Args) :
    List Skill × Except PyExc PyStr :=
  if skillPat.isPrefixOf toolName then
    loaderDispatch env skills (stripSkillOccurrences toolName)
  else
    match callToolMCP env skills toolName arguments with
    | some r => (skills, r)
    | none =>
      (skills, .ok (str "Error: Tool \x27" ++ toolName ++ str "\x27 not found or skill not loaded."))

/-- The exception classes caught by the per-tool-call wrapper in the turn
loop (`except (json.JSONDecodeError, RuntimeError, OpenAIError)`). -/
def caughtByWrapper (k : ExcKind) : Bool :=
  k = .jsonDecodeError || k = .runtimeError || k = .openAIError

/-- One tool execution step of the turn loop: parse the accumulated
argument text with `json.loads`, then `call_tool`; exceptions of the
wrapper-caught classes become `Error: <message>` result strings, all
others propagate (and abort the turn). -/
def executeToolCall (env : Env) (skills : List Skill) (fnName fnArgsStr : PyStr) :
    List Skill × Except PyExc PyStr :=
  match env.jsonParse fnArgsStr with
  | .error e =>
    if caughtByWrapper e.kind then (skills, .ok (str "Error: " ++ e.msg))
    else (skills, .error e)
  | .ok fnArgs =>
    match callTool env skills fnName fnArgs with
    | (skills1, .ok result) => (skills1, .ok result)
    | (skills1, .error e) =>
      if caughtByWrapper e.kind then (skills1, .ok (str "Error: " ++ e.msg))
      else (skills1, .error e)

/-! ## Streaming reassembly of tool invocations -/

/-- One streamed tool-call fragment (`tc` in
`chunk.choices[0].delta.tool_calls`): `tc.id`, `tc.function.name` and
`tc.function.arguments`, with the empty string standing for an absent
(falsy) field exactly as in the Python truthiness tests. -/
structure ToolCallFrag where
  id : PyStr := []
  name : PyStr := []
  args : PyStr := []
deriving DecidableEq, Repr

/-- A completed tool invocation record as stored in `tool_calls`
(`{"id": ..., "function": {"name": ..., "arguments": ...}}`). -/
structure ToolInvocation where
  id : PyStr
  name : PyStr
  args : PyStr
deriving DecidableEq, Repr

/-- One stream delta (`chunk.choices[0].delta`): optional reasoning text,
optional content text, and a possibly empty list of tool-call fragments. -/
structure Delta where
  reasoning : PyStr := []
  content : PyStr := []
  toolCalls : List ToolCallFrag := []
deriving DecidableEq, Repr

/-- Processing one tool-call fragment against the pair
`(tool_calls, current_tool_call)`: a fragment with a truthy id seals the
in-flight invocation and opens a new one; a fragment with truthy argument
text appends to the in-flight invocation.  When argument text arrives
with no in-flight invocation, the Python code subscripts `None`
(`current_tool_call["function"]["arguments"] += ...`) and raises,
modelled by `none`. -/
def processFrag (st : List ToolInvocation × Option ToolInvocation) (tc : ToolCallFrag) :
    Option (List ToolInvocation × Option ToolInvocation) :=
  let st1 :=
    if tc.id.isEmpty then st
    else
      (match st.2 with
       | some c => st.1 ++ [c]
       | none => st.1,
       some { id := tc.id, name := tc.name, args := [] })
  if tc.args.isEmpty then some st1
  else
    match st1.2 with
    | none => none
    | some c => some (st1.1, some { c with args := c.args ++ tc.args })

/-- Accumulator state of the chunk loop. -/
structure StreamAcc where
  reasoning : PyStr
  content : PyStr
  completed : List ToolInvocation
  current : Option ToolInvocation
deriving DecidableEq, Repr

/-- Processing one chunk: accumulate reasoning and content text, then fold
the chunk fragments with `processFrag`. -/
def processChunk (st : StreamAcc) (ch : Delta) : Option StreamAcc := do
  let p ← ch.toolCalls.foldlM processFrag (st.completed, st.current)
  some { reasoning := st.reasoning ++ ch.reasoning,
         content := st.content ++ ch.content,
         completed := p.1, current := p.2 }

/-- Sealing at stream end: `if current_tool_call: tool_calls.append(...)`. -/
def sealPair (p : List ToolInvocation × Option ToolInvocation) : List ToolInvocation :=
  match p.2 with
  | some c => p.1 ++ [c]
  | none => p.1

/-- The whole `for chunk in stream` loop of the turn executor: reassembled
reasoning text, content text and completed tool invocations, or `none`
when the reassembly code raises. -/
def runStream (chunks : List Delta) : Option (PyStr × PyStr × List ToolInvocation) := do
  let st ← chunks.foldlM processChunk ⟨[], [], [], none⟩
  some (st.reasoning, st.content, sealPair (st.completed, st.current))

/-- The flattened fragment sequence of a stream. -/
def flatFrags (chunks : List Delta) : List ToolCallFrag :=
  (chunks.map Delta.toolCalls).flatten

/-- Fragment-level reassembly: the fragment fold followed by sealing. -/
def reassembleFrags (frags : List ToolCallFrag) : Option (List ToolInvocation) := do
  let p ← frags.foldlM processFrag ([], none)
  some (sealPair p)

/-- A fragment carrying no invocation identity. -/
def noId (f : ToolCallFrag) : Bool := f.id.isEmpty

/-- A fragment sequence in which every fragment before the first
id-carrying fragment has empty argument text; equivalently, every
argument fragment is preceded by some id fragment. -/
def wellFormedFrags (frags : List ToolCallFrag) : Prop :=
  ∀ f ∈ frags.takeWhile noId, f.args = []

instance : DecidablePred wellFormedFrags := fun frags =>
  inferInstanceAs (Decidable (∀ f ∈ frags.takeWhile noId, f.args = []))

lemma length_dropWhile_le (p : α → Bool) (l : List α) :
    (l.dropWhile p).length ≤ l.length := by
  induction l with
  | nil => simp [List.dropWhile]
  | cons a l ih =>
    simp only [List.dropWhile]
    split
    · exact Nat.le_trans ih (by simp)
    · simp

/-- The specified grouping of fragments into invocation records: each
id-carrying fragment yields one record whose argument text is its own
argument text followed by the argument text of the id-less fragments up
to the next id-carrying fragment (or stream end); id-less fragments
before the first id contribute nothing. -/
def groupFrags : List ToolCallFrag → List ToolInvocation
  | [] => []
  | tc :: rest =>
    if noId tc then groupFrags rest
    else
      { id := tc.id, name := tc.name,
        args := tc.args ++ ((rest.takeWhile noId).map ToolCallFrag.args).flatten }
        :: groupFrags (rest.dropWhile noId)
termination_by frags => frags.length
decreasing_by
  · simp
  · have := length_dropWhile_le noId rest
    simp only [List.length_cons]
    omega

/-! ## Context compaction -/

/-- One transcript message.  `reasoningContent` and `toolCalls` default to
empty, standing for keys that are absent from the message dict; `.get`
with a default makes the two representations observationally equal in the
compaction arithmetic. -/
structure Msg where
  role : PyStr
  content : PyStr
  reasoningContent : PyStr := []
  toolCalls : List ToolInvocation := []
  toolCallId : PyStr := []
deriving DecidableEq, Repr

def CONTEXT_CHAR_LIMIT : Nat := 1000000
def CONTEXT_KEEP_LAST_MESSAGES : Nat := 10
def MAX_TOOL_ITERATIONS : Nat := 1000

/-- `sum(len(str(m.get("content", ""))) + len(str(m.get("reasoning_content", ""))) ...)`. -/
def totalChars (msgs : List Msg) : Nat :=
  (msgs.map (fun m => m.content.length + m.reasoningContent.length)).sum

/-- The flattened `role: content` rendering of the messages to summarize. -/
def renderHistory (msgs : List Msg) : PyStr :=
  (msgs.map (fun m => m.role ++ str ": " ++ m.content ++ str "\n")).flatten

/-- The fixed summarization instruction plus the flattened history. -/
def summaryPrompt (msgs : List Msg) : PyStr :=
  str "Summarize the following interaction history concisely, focusing on completed actions, key findings, and current state. Ignore minor details.\n\n"
    ++ renderHistory msgs

/-- The synthetic summary message injected with the `user` role. -/
def summaryMsg (summary : PyStr) : Msg :=
  { role := str "user",
    content := str "## Previous Conversation Summary\n" ++ summary
      ++ str "\n\n(Resume task based on this summary)" }

/-- The exception classes caught around the summarization call
(`except (OpenAIError, RuntimeError)`). -/
def caughtByCondense (k : ExcKind) : Bool :=
  k = .openAIError || k = .runtimeError

/-- `DeepSeekMCPAgent._condense_context`: when the total character count
exceeds the limit and the transcript is long enough to split, summarize
`messages[1:-KEEP_LAST]` and replace the transcript with the system
message, the synthetic summary message and the last `KEEP_LAST` messages.
On a caught summarization failure, and below the trigger, the transcript
is left untouched; an uncaught summarization exception propagates, also
leaving the transcript untouched. -/
def condenseContext (summarize : PyStr → Except PyExc PyStr) (msgs : List Msg) :
    List Msg × Option PyExc :=
  if totalChars msgs > CONTEXT_CHAR_LIMIT
      ∧ msgs.length > CONTEXT_KEEP_LAST_MESSAGES + 2 then
    match msgs with
    | [] => (msgs, none)
    | systemPrompt :: _ =>
      let toSummarize := (msgs.drop 1).take (msgs.length - CONTEXT_KEEP_LAST_MESSAGES - 1)
      let toKeep := msgs.drop (msgs.length - CONTEXT_KEEP_LAST_MESSAGES)
      match summarize (summaryPrompt toSummarize) with
      | .error e => if caughtByCondense e.kind then (msgs, none) else (msgs, some e)
      | .ok summary => (systemPrompt :: summaryMsg summary :: toKeep, none)
  else (msgs, none)

/-! ## The per-turn tool-calling loop -/

/-- The result of one user turn: the transcript and registry after the
loop, the number of tool-dispatch round-trips performed, and the number
of streaming model calls issued. -/
structure TurnResult where
  messages : List Msg
  skills : List Skill
  rounds : Nat
  modelCalls : Nat
deriving DecidableEq, Repr

/-- The `for tc in tool_calls` execution loop: dispatch each completed
invocation in order and append its tool-result message.  A propagated
exception aborts the loop (third component `true`), keeping the messages
appended so far. -/
def execToolCalls (env : Env) :
    List Skill → List Msg → List ToolInvocation → List Skill × List Msg × Bool
  | sks, msgs, [] => (sks, msgs, false)
  | sks, msgs, tc :: rest =>
    match executeToolCall env sks tc.name tc.args with
    | (sks1, .ok result) =>
      execToolCalls env sks1
        (msgs ++ [{ role := str "tool", toolCallId := tc.id, content := result }]) rest
    | (sks1, .error _) => (sks1, msgs, true)

/-- The assistant message stored after one model stream:
`reasoning_content` and `tool_calls` keys are set only when non-empty,
which the default-valued `Msg` fields represent directly. -/
def assistantMsg (reasoning content : PyStr) (toolCalls : List ToolInvocation) : Msg :=
  { role := str "assistant", content := content,
    reasoningContent := reasoning, toolCalls := toolCalls }

/-- The inner `while True` loop of one user turn, starting at iteration
counter `iter`.  Each pass checks the iteration cap, runs the compaction
guard, rebuilds the visible tools, issues one streaming model call
(`respond iter`), reassembles it, appends the assistant message, and
either finishes (no tool calls) or dispatches every completed invocation
and re-enters with `iter + 1`.  A propagated exception from compaction,
tool listing, stream reassembly or dispatch aborts the turn with the
transcript as mutated so far. -/
def runTurnAux (env : Env) (respond : Nat → List Delta)
    (summarizeAt : Nat → PyStr → Except PyExc PyStr) :
    Nat → List Skill → List Msg → TurnResult
  | iter, skills, msgs =>
    if _h : iter ≥ MAX_TOOL_ITERATIONS then
      { messages := msgs, skills := skills, rounds := 0, modelCalls := 0 }
    else
      let c := condenseContext (summarizeAt iter) msgs
      match c.2 with
      | some _ => { messages := c.1, skills := skills, rounds := 0, modelCalls := 0 }
      | none =>
        let lt := listToolsSt env skills
        match lt.2 with
        | .error _ =>
          { messages := c.1, skills := lt.1, rounds := 0, modelCalls := 0 }
        | .ok _tools =>
          match runStream (respond iter) with
          | none =>
            { messages := c.1, skills := lt.1, rounds := 0, modelCalls := 1 }
          | some (reasoning, content, toolCalls) =>
            let msgs2 := c.1 ++ [assistantMsg reasoning content toolCalls]
            if toolCalls = [] then
              { messages := msgs2, skills := lt.1, rounds := 0, modelCalls := 1 }
            else
              let ex := execToolCalls env lt.1 msgs2 toolCalls
              if ex.2.2 then
                { messages := ex.2.1, skills := ex.1, rounds := 1, modelCalls := 1 }
              else
                let r := runTurnAux env respond summarizeAt (iter + 1) ex.1 ex.2.1
                { messages := r.messages, skills := r.skills,
                  rounds := r.rounds + 1, modelCalls := r.modelCalls + 1 }
termination_by iter _ _ => MAX_TOOL_ITERATIONS - iter
decreasing_by omega

/-- One user turn, starting with `tool_iterations = 0`. -/
def runTurn (env : Env) (respond : Nat → List Delta)
    (summarizeAt : Nat → PyStr → Except PyExc PyStr)
    (skills : List Skill) (msgs : List Msg) : TurnResult :=
  runTurnAux env respond summarizeAt 0 skills msgs

/-! ## Theorems -/

/-- Claim C5: whenever the compaction trigger holds (total characters of
content plus reasoning content exceed `CONTEXT_CHAR_LIMIT` and the
transcript has more than `KEEP_LAST + 2` messages) and the summarization
call succeeds, the resulting transcript is exactly the original system
message, one synthetic summary message with role `user`, and then exactly
the last `KEEP_LAST = 10` messages of the previous transcript, with the
system message byte-identical to the original. -/
theorem claim_C5_compaction_success
    (summarize : PyStr → Except PyExc PyStr) (msgs : List Msg) (s : PyStr)
    (htot : totalChars msgs > CONTEXT_CHAR_LIMIT)
    (hlen : msgs.length > CONTEXT_KEEP_LAST_MESSAGES + 2)
    (hok : summarize (summaryPrompt ((msgs.drop 1).take
      (msgs.length - CONTEXT_KEEP_LAST_MESSAGES - 1))) = .ok s) :
    condenseContext summarize msgs
      = (msgs.take 1
          ++ summaryMsg s :: msgs.drop (msgs.length - CONTEXT_KEEP_LAST_MESSAGES), none)
    ∧ (summaryMsg s).role = str "user"
    ∧ (msgs.drop (msgs.length - CONTEXT_KEEP_LAST_MESSAGES)).length
        = CONTEXT_KEEP_LAST_MESSAGES := by
  refine ⟨?_, rfl, ?_⟩
  · unfold condenseContext
    rw [if_pos ⟨htot, hlen⟩]
    match msgs, hlen, hok with
    | m :: rest, _, hok =>
      simp only [List.length_cons, List.drop_succ_cons, List.drop_zero] at hok
      simp [hok]
  · rw [List.length_drop]
    unfold CONTEXT_KEEP_LAST_MESSAGES at hlen ⊢
    omega

def exC5Summarize : PyStr → Except PyExc PyStr := fun _ => .ok (str "SUM")

def emptyUserMsg : Msg := { role := str "user", content := [] }

def exC5Msgs : List Msg :=
  { role := str "system", content := [] }
    :: { role := str "user", content := List.replicate 1000001 'a' }
    :: List.replicate 11 emptyUserMsg

lemma totalChars_cons (m : Msg) (ms : List Msg) :
    totalChars (m :: ms)
      = m.content.length + m.reasoningContent.length + totalChars ms := by
  simp [totalChars]

lemma totalChars_big (n : Nat) (tail : List Msg) :
    totalChars ({ role := str "system", content := [] }
      :: { role := str "user", content := List.replicate n 'a' } :: tail)
      = n + totalChars tail := by
  rw [totalChars_cons, totalChars_cons]
  simp

theorem claim_C5_compaction_success_witness :
    totalChars exC5Msgs > CONTEXT_CHAR_LIMIT
    ∧ exC5Msgs.length > CONTEXT_KEEP_LAST_MESSAGES + 2
    ∧ condenseContext exC5Summarize exC5Msgs
        = (exC5Msgs.take 1 ++ summaryMsg (str "SUM")
            :: exC5Msgs.drop (exC5Msgs.length - CONTEXT_KEEP_LAST_MESSAGES), none) := by
  have h1 : totalChars exC5Msgs > CONTEXT_CHAR_LIMIT := by
    have htail : totalChars (List.replicate 11 emptyUserMsg) = 0 := by decide
    have hc : totalChars exC5Msgs
        = 1000001 + totalChars (List.replicate 11 emptyUserMsg) := by
      simp only [exC5Msgs]
      exact totalChars_big 1000001 _
    rw [hc, htail]
    unfold CONTEXT_CHAR_LIMIT
    omega
  have h2 : exC5Msgs.length > CONTEXT_KEEP_LAST_MESSAGES + 2 := by
    have hl : exC5Msgs.length = 13 := by
      simp only [exC5Msgs, List.length_cons, List.length_replicate]
    rw [hl]
    unfold CONTEXT_KEEP_LAST_MESSAGES
    omega
  exact ⟨h1, h2, (claim_C5_compaction_success exC5Summarize exC5Msgs (str "SUM")
    h1 h2 rfl).1⟩

/-- Claim C6: `_condense_context` leaves the transcript completely
unchanged whenever it does not perform a successful compaction: when the
total character count is at or under the limit, when the transcript has
`KEEP_LAST + 2` or fewer messages, and when the summarization call fails
with a caught transport/API error. -/
theorem claim_C6_compaction_noop
    (summarize : PyStr → Except PyExc PyStr) (msgs : List Msg)
    (h : ¬ totalChars msgs > CONTEXT_CHAR_LIMIT
       ∨ ¬ msgs.length > CONTEXT_KEEP_LAST_MESSAGES + 2
       ∨ ∃ e, summarize (summaryPrompt ((msgs.drop 1).take
           (msgs.length - CONTEXT_KEEP_LAST_MESSAGES - 1))) = .error e
           ∧ caughtByCondense e.kind = true) :
    condenseContext summarize msgs = (msgs, none) := by
  by_cases htrig : totalChars msgs > CONTEXT_CHAR_LIMIT
      ∧ msgs.length > CONTEXT_KEEP_LAST_MESSAGES + 2
  · obtain ⟨e, he, hc⟩ : ∃ e, summarize (summaryPrompt ((msgs.drop 1).take
        (msgs.length - CONTEXT_KEEP_LAST_MESSAGES - 1))) = .error e
        ∧ caughtByCondense e.kind = true := by
      rcases h with h | h | h
      · exact absurd htrig.1 h
      · exact absurd htrig.2 h
      · exact h
    unfold condenseContext
    rw [if_pos htrig]
    match msgs, htrig, he with
    | m :: rest, _, he =>
      simp only [List.length_cons, List.drop_succ_cons, List.drop_zero] at he
      simp [he, hc]
  · unfold condenseContext
    rw [if_neg htrig]

theorem claim_C6_compaction_noop_witness :
    ¬ totalChars [{ role := str "user", content := str "hi" }] > CONTEXT_CHAR_LIMIT
    ∧ condenseContext exC5Summarize [{ role := str "user", content := str "hi" }]
        = ([{ role := str "user", content := str "hi" }], none) := by
  have h : ¬ totalChars [{ role := str "user", content := str "hi" }] > CONTEXT_CHAR_LIMIT := by
    decide
  exact ⟨h, claim_C6_compaction_noop exC5Summarize _ (Or.inl h)⟩

/-! ## Disclosure payload (C2) -/

/-- Written from the words of the spec, for comparison with the code:
`full_instructions` as "the document body, minus front matter" — the text
after the closing `---` of the front-matter block, or the whole document
when there is no front-matter block. -/
def specFrontMatterStrippedBody (content : PyStr) : PyStr :=
  if (str "---").isPrefixOf content then
    match pySplit3 (str "---") content with
    | some p => p.2.2
    | none => content
  else content

/-- A benign environment for witnesses: connections succeed with no
tools, backends return empty content, argument parsing succeeds. -/
def trivEnv : Env :=
  { connect := fun _ => .success [],
    callBackend := fun _ _ _ => .success [],
    jsonParse := fun _ => .ok [] }

def exC2Doc : PyStr := str "---\ndescription: d\n---\nBODY"

def exC2Cfg : SkillConfig := { name := str "x", command := str "c", args := [] }

def exC2Skill : Skill :=
  { config := exC2Cfg, loaded := false, session := false, toolsCache := [],
    descriptionStr := str "d", fullInstructions := exC2Doc }

def exC2CfgB : SkillConfig := { name := str "y", command := str "c", args := [] }

def exC2SkillB : Skill :=
  { config := exC2CfgB, loaded := false, session := false, toolsCache := [],
    descriptionStr := str "Tools for y", fullInstructions := str "Body only" }

/-- Claim C2 is false on the code: for a registered skill whose document
has a front-matter block, invoking `skill_x` returns the whole document
including the front matter, not the body with the front matter removed;
and for a document with no front matter the whole document is returned,
not the default text. -/
theorem claim_C2_counterexample :
    mkSkillWrapper exC2Cfg (.present exC2Doc) = some exC2Skill
    ∧ (callTool trivEnv [exC2Skill] (str "skill_x") []).2 = .ok exC2Doc
    ∧ specFrontMatterStrippedBody exC2Doc = str "\nBODY"
    ∧ exC2Doc ≠ str "\nBODY"
    ∧ mkSkillWrapper exC2CfgB (.present (str "Body only")) = some exC2SkillB
    ∧ (callTool trivEnv [exC2SkillB] (str "skill_y") []).2 = .ok (str "Body only")
    ∧ (str "Body only" : PyStr) ≠ str "Tools for y" := by
  decide

lemma connectServer_preserves (env : Env) (sk : Skill) :
    (connectServer env sk).1.config = sk.config
    ∧ (connectServer env sk).1.loaded = sk.loaded
    ∧ (connectServer env sk).1.fullInstructions = sk.fullInstructions
    ∧ (connectServer env sk).1.descriptionStr = sk.descriptionStr := by
  unfold connectServer
  split
  · exact ⟨rfl, rfl, rfl, rfl⟩
  · cases env.connect sk.config.name with
    | success tools => exact ⟨rfl, rfl, rfl, rfl⟩
    | failAt afterSession cachedTools e =>
      dsimp only
      split <;> split <;> simp

/-- A connection oracle that only fails with exceptions of the classes
caught by `connect_server` never propagates out of `connectServer`. -/
lemma connectServer_benign (env : Env) (sk : Skill)
    (h : ∀ aft ts e, env.connect sk.config.name = .failAt aft ts e
      → caughtByConnect e.kind = true) :
    (connectServer env sk).2 = none := by
  unfold connectServer
  split
  · rfl
  · cases hc : env.connect sk.config.name with
    | success tools => rfl
    | failAt afterSession cachedTools e =>
      have := h _ _ _ hc
      simp [this]

lemma mkSkillWrapper_fields (cfg : SkillConfig) (doc : SkillDoc) (sk : Skill)
    (h : mkSkillWrapper cfg doc = some sk) :
    sk.config = cfg ∧ sk.loaded = false ∧ sk.session = false
    ∧ sk.fullInstructions
        = (match doc with
           | .present c => c
           | _ => str "Tools for " ++ cfg.name) := by
  unfold mkSkillWrapper loadMetadata at h
  cases doc with
  | noPath =>
    simp at h
    subst h
    exact ⟨rfl, rfl, rfl, rfl⟩
  | missingFile =>
    simp at h
    subst h
    exact ⟨rfl, rfl, rfl, rfl⟩
  | present content =>
    dsimp only at h
    split at h
    · cases hs : pySplit3 (str "---") content with
      | none => rw [hs] at h; simp at h
      | some p =>
        rw [hs] at h
        simp at h
        subst h
        exact ⟨rfl, rfl, rfl, rfl⟩
    · simp at h
      subst h
      exact ⟨rfl, rfl, rfl, rfl⟩

lemma isPrefixOf_append_self (l m : PyStr) : l.isPrefixOf (l ++ m) = true := by
  induction l with
  | nil => simp [List.isPrefixOf]
  | cons c rest ih => simp [List.isPrefixOf, ih]

/-- The loader branch on a single-skill registry whose name matches. -/
lemma loaderDispatch_single (env : Env) (sk : Skill) (n : PyStr)
    (hname : sk.config.name = n) :
    loaderDispatch env [sk] n =
      ((connectServer env { sk with loaded := true }).1 :: [],
        match (connectServer env { sk with loaded := true }).2 with
        | none => .ok (connectServer env { sk with loaded := true }).1.fullInstructions
        | some e => .error e) := by
  unfold loaderDispatch
  rw [if_pos hname]
  cases hc2 : (connectServer env { sk with loaded := true }).2 <;> simp [hc2]

/-- Claim C2 (amended): invoking the disclosure operation for a
registered skill returns the full capability document text verbatim
(front matter included); for a skill with no document path or a missing
document file, the default text `Tools for <name>` is returned. -/
theorem claim_C2_amended_full_instructions
    (env : Env) (cfg : SkillConfig) (doc : SkillDoc) (sk : Skill) (a : Args)
    (hmk : mkSkillWrapper cfg doc = some sk)
    (hstrip : stripSkillOccurrences (str "skill_" ++ cfg.name) = cfg.name)
    (hconn : ∀ aft ts e, env.connect cfg.name = .failAt aft ts e
      → caughtByConnect e.kind = true) :
    (callTool env [sk] (str "skill_" ++ cfg.name) a).2
      = .ok (match doc with
             | .present content => content
             | _ => str "Tools for " ++ cfg.name) := by
  obtain ⟨hcfg, _, _, hfull⟩ := mkSkillWrapper_fields cfg doc sk hmk
  unfold callTool
  rw [show skillPat.isPrefixOf (str "skill_" ++ cfg.name) = true from
    isPrefixOf_append_self _ _]
  rw [if_pos rfl, hstrip,
    loaderDispatch_single env sk cfg.name (by rw [hcfg])]
  have hben : (connectServer env { sk with loaded := true }).2 = none := by
    apply connectServer_benign
    intro aft ts e he
    exact hconn aft ts e (by rw [← he, hcfg])
  have hfi : (connectServer env { sk with loaded := true }).1.fullInstructions
      = sk.fullInstructions := (connectServer_preserves env _).2.2.1
  dsimp only
  rw [hben, hfi, hfull]

theorem claim_C2_amended_witness :
    mkSkillWrapper exC2Cfg (.present exC2Doc) = some exC2Skill
    ∧ stripSkillOccurrences (str "skill_" ++ exC2Cfg.name) = exC2Cfg.name
    ∧ (callTool trivEnv [exC2Skill] (str "skill_" ++ exC2Cfg.name) []).2
        = .ok exC2Doc := by
  refine ⟨by decide, by decide, ?_⟩
  exact claim_C2_amended_full_instructions trivEnv exC2Cfg (.present exC2Doc)
    exC2Skill [] (by decide) (by decide)
    (fun aft ts e he => ConnectOutcome.noConfusion he)

/-! ## Disclosure-name routing (C9) -/

/-- Forgetting the cached operation lists of every skill. -/
def eraseCaches (sk : Skill) : Skill := { sk with toolsCache := [] }

lemma connectServer_erase (env : Env) (sk : Skill) :
    (connectServer env (eraseCaches sk)).2 = (connectServer env sk).2
    ∧ (connectServer env (eraseCaches sk)).1.fullInstructions
        = (connectServer env sk).1.fullInstructions := by
  unfold connectServer eraseCaches
  dsimp only
  cases hs : sk.session
  · simp only [hs, Bool.false_eq_true, if_false]
    cases hc : env.connect sk.config.name with
    | success tools => simp
    | failAt afterSession cachedTools e =>
      cases afterSession <;> by_cases hcaught : caughtByConnect e.kind = true <;>
        simp [hcaught]
  · simp [hs]

lemma loaderDispatch_miss (env : Env) (skills : List Skill) (n : PyStr)
    (h : ∀ sk ∈ skills, sk.config.name ≠ n) :
    loaderDispatch env skills n
      = (skills, .ok (str "Error: Skill \x27" ++ n ++ str "\x27 not found.")) := by
  induction skills with
  | nil => rfl
  | cons sk rest ih =>
    unfold loaderDispatch
    rw [if_neg (h sk (by simp))]
    rw [ih (fun s hs => h s (by simp [hs]))]

lemma loaderDispatch_erase (env : Env) (skills : List Skill) (n : PyStr) :
    (loaderDispatch env (skills.map eraseCaches) n).2
      = (loaderDispatch env skills n).2 := by
  induction skills with
  | nil => rfl
  | cons sk rest ih =>
    rw [List.map_cons]
    unfold loaderDispatch
    by_cases hn : sk.config.name = n
    · rw [if_pos (show (eraseCaches sk).config.name = n from hn), if_pos hn]
      obtain ⟨hE2, hE1⟩ := connectServer_erase env { sk with loaded := true }
      dsimp only [eraseCaches] at hE2 hE1 ⊢
      rw [hE2, hE1]
      cases hA : (connectServer env { sk with loaded := true }).2 <;> simp [hA]
    · rw [if_neg (show ¬ (eraseCaches sk).config.name = n from hn), if_neg hn]
      simpa using ih

/-- Claim C9: every operation name starting with `skill_` is resolved
exclusively on the disclosure path — the result never depends on the
cached operation lists, so a loaded backend operation of the same name is
never dispatched; the skill looked up is the name with every occurrence
of `skill_` removed (so `skill_skill_notes` looks up `notes`); and a miss
returns the exact not-found error text. -/
theorem claim_C9_skill_prefix_routing
    (env : Env) (skills : List Skill) (t : PyStr) (a : Args)
    (h : skillPat.isPrefixOf t = true) :
    callTool env skills t a = loaderDispatch env skills (stripSkillOccurrences t)
    ∧ (callTool env (skills.map eraseCaches) t a).2 = (callTool env skills t a).2
    ∧ stripSkillOccurrences (str "skill_skill_notes") = str "notes"
    ∧ ((∀ sk ∈ skills, sk.config.name ≠ stripSkillOccurrences t) →
        callTool env skills t a
          = (skills, .ok (str "Error: Skill \x27" ++ stripSkillOccurrences t
              ++ str "\x27 not found."))) := by
  have hroute : ∀ sks : List Skill,
      callTool env sks t a = loaderDispatch env sks (stripSkillOccurrences t) := by
    intro sks
    unfold callTool
    rw [if_pos h]
  refine ⟨hroute skills, ?_, by decide, ?_⟩
  · rw [hroute skills, hroute (skills.map eraseCaches)]
    exact loaderDispatch_erase env skills _
  · intro hmiss
    rw [hroute skills]
    exact loaderDispatch_miss env skills _ hmiss

theorem claim_C9_skill_prefix_routing_witness :
    skillPat.isPrefixOf (str "skill_skill_notes") = true
    ∧ callTool trivEnv [] (str "skill_skill_notes") []
        = ([], .ok (str "Error: Skill \x27notes\x27 not found.")) := by
  refine ⟨by decide, ?_⟩
  have h := claim_C9_skill_prefix_routing trivEnv [] (str "skill_skill_notes") []
    (by decide)
  have hm := h.2.2.2 (by intro sk hsk; cases hsk)
  rw [hm]
  decide

/-! ## Disclosure idempotence (C7) -/

lemma connectServer_connected (env : Env) (sk : Skill) (h : sk.session = true) :
    connectServer env sk = (sk, none) := by
  unfold connectServer
  rw [if_pos h]

lemma setLoadedTrue_eq (sk : Skill) (h : sk.loaded = true) :
    { sk with loaded := true } = sk := by
  cases sk
  simp_all

/-- After a connection attempt that did not propagate, attempting to
connect the resulting handle again is a no-op. -/
lemma connectServer_twice (env : Env) (sk : Skill)
    (h : (connectServer env sk).2 = none) :
    connectServer env (connectServer env sk).1 = ((connectServer env sk).1, none) := by
  by_cases hs : sk.session = true
  · rw [connectServer_connected env sk hs]
    exact connectServer_connected env sk hs
  · cases hc : env.connect sk.config.name with
    | success tools =>
      have hfst : (connectServer env sk).1
          = { sk with session := true, toolsCache := sk.toolsCache ++ tools } := by
        unfold connectServer
        rw [if_neg hs, hc]
      rw [hfst]
      exact connectServer_connected env _ rfl
    | failAt aft ts e =>
      by_cases hcaught : caughtByConnect e.kind = true
      · cases aft with
        | true =>
          have hfst : (connectServer env sk).1
              = { sk with session := true, toolsCache := sk.toolsCache ++ ts } := by
            unfold connectServer
            rw [if_neg hs, hc]
            simp [hcaught]
          rw [hfst]
          exact connectServer_connected env _ rfl
        | false =>
          have hfst : (connectServer env sk).1 = sk := by
            unfold connectServer
            rw [if_neg hs, hc]
            simp [hcaught]
          rw [hfst]
          unfold connectServer
          rw [if_neg hs, hc]
          simp [hcaught]
      · exfalso
        unfold connectServer at h
        rw [if_neg hs, hc] at h
        simp [hcaught] at h

/-- The loader branch on a registry in which the skills before `sk` all
miss and `sk` matches. -/
lemma loaderDispatch_found (env : Env) (pre post : List Skill) (sk : Skill) (n : PyStr)
    (hpre : ∀ s2 ∈ pre, s2.config.name ≠ n) (hsk : sk.config.name = n) :
    loaderDispatch env (pre ++ sk :: post) n
      = (pre ++ (connectServer env { sk with loaded := true }).1 :: post,
         match (connectServer env { sk with loaded := true }).2 with
         | none => .ok (connectServer env { sk with loaded := true }).1.fullInstructions
         | some e => .error e) := by
  induction pre with
  | nil =>
    simp only [List.nil_append]
    unfold loaderDispatch
    rw [if_pos hsk]
    cases hc : (connectServer env { sk with loaded := true }).2 <;> simp [hc]
  | cons p rest ih =>
    simp only [List.cons_append]
    unfold loaderDispatch
    rw [if_neg (hpre p (by simp))]
    rw [ih (fun s2 hs2 => hpre s2 (by simp [hs2]))]

/-- Claim C7: invoking the disclosure operation a second time for the
same registered skill leaves `loaded = true`, returns the same
instructions text as the first invocation, and changes nothing further:
the registry state after the second call equals the state after the
first, and connecting an already-connected handle is a no-op, so the
connection is established at most once per handle. -/
theorem claim_C7_disclosure_idempotent
    (env : Env) (pre post : List Skill) (sk : Skill) (t : PyStr) (a : Args) (s : PyStr)
    (hpref : skillPat.isPrefixOf t = true)
    (hstrip : stripSkillOccurrences t = sk.config.name)
    (hpre : ∀ s2 ∈ pre, s2.config.name ≠ sk.config.name)
    (h1 : (callTool env (pre ++ sk :: post) t a).2 = .ok s) :
    ∃ sk1,
      (callTool env (pre ++ sk :: post) t a).1 = pre ++ sk1 :: post
      ∧ sk1.loaded = true
      ∧ s = sk.fullInstructions
      ∧ callTool env (pre ++ sk1 :: post) t a = (pre ++ sk1 :: post, .ok s)
      ∧ (∀ sk2 : Skill, sk2.session = true → connectServer env sk2 = (sk2, none)) := by
  have hroute : ∀ sks : List Skill,
      callTool env sks t a = loaderDispatch env sks sk.config.name := by
    intro sks
    unfold callTool
    rw [if_pos hpref, hstrip]
  have hfound := loaderDispatch_found env pre post sk sk.config.name hpre rfl
  have hpres := connectServer_preserves env { sk with loaded := true }
  rw [hroute _, hfound] at h1
  dsimp only at h1
  cases hc2 : (connectServer env { sk with loaded := true }).2 with
  | some e => rw [hc2] at h1; simp at h1
  | none =>
    rw [hc2] at h1
    simp only [Except.ok.injEq] at h1
    have hload : (connectServer env { sk with loaded := true }).1.loaded = true := by
      have := hpres.2.1
      simpa using this
    have hname : (connectServer env { sk with loaded := true }).1.config.name
        = sk.config.name := by
      rw [hpres.1]
    have hfi : (connectServer env { sk with loaded := true }).1.fullInstructions
        = sk.fullInstructions := by
      have := hpres.2.2.1
      simpa using this
    refine ⟨(connectServer env { sk with loaded := true }).1, ?_, hload, ?_, ?_, ?_⟩
    · rw [hroute _, hfound]
    · rw [← h1, hfi]
    · rw [hroute _,
        loaderDispatch_found env pre post _ sk.config.name hpre hname,
        setLoadedTrue_eq _ hload,
        connectServer_twice env { sk with loaded := true } hc2]
      dsimp only
      rw [← h1, hfi]
    · exact fun sk2 h2 => connectServer_connected env sk2 h2

def exC7Skill : Skill :=
  { config := { name := str "s1", command := str "c", args := [] },
    loaded := false, session := false, toolsCache := [],
    descriptionStr := str "d", fullInstructions := str "FULL" }

theorem claim_C7_disclosure_idempotent_witness :
    skillPat.isPrefixOf (str "skill_s1") = true
    ∧ (callTool trivEnv [exC7Skill] (str "skill_s1") []).2 = .ok (str "FULL")
    ∧ ∃ sk1,
        (callTool trivEnv [exC7Skill] (str "skill_s1") []).1 = [] ++ sk1 :: []
        ∧ sk1.loaded = true
        ∧ str "FULL" = exC7Skill.fullInstructions
        ∧ callTool trivEnv ([] ++ sk1 :: []) (str "skill_s1") []
            = ([] ++ sk1 :: [], .ok (str "FULL"))
        ∧ (∀ sk2 : Skill, sk2.session = true
            → connectServer trivEnv sk2 = (sk2, none)) := by
  refine ⟨by decide, by decide, ?_⟩
  exact claim_C7_disclosure_idempotent trivEnv [] [] exC7Skill (str "skill_s1") []
    (str "FULL") (by decide) (by decide) (by intro s2 hs2; cases hs2) (by decide)

/-! ## Dispatch safety (C3) -/

/-- Connection attempts only raise exception classes caught by
`connect_server`. -/
def benignConnect (env : Env) : Prop :=
  ∀ n aft ts e, env.connect n = .failAt aft ts e → caughtByConnect e.kind = true

/-- Backend invocations only raise exception classes caught around
`session.call_tool`. -/
def benignBackend (env : Env) : Prop :=
  ∀ sn tn a e, env.callBackend sn tn a = .raised e → caughtByCallTool e.kind = true

/-- Argument parsing only raises exception classes caught by the
turn-loop wrapper. -/
def benignParse (env : Env) : Prop :=
  ∀ s e, env.jsonParse s = .error e → caughtByWrapper e.kind = true

/-- An environment whose backend raises a `ValueError`, a class caught
neither inside `call_tool` nor by the turn-loop wrapper. -/
def badBackendEnv : Env :=
  { connect := fun _ => .success [],
    callBackend := fun _ _ _ => .raised ⟨.valueError, str "boom"⟩,
    jsonParse := fun _ => .ok [] }

def exC3Skill : Skill :=
  { config := { name := str "s1", command := str "c", args := [] },
    loaded := true, session := true,
    toolsCache := [⟨str "t", str "d", ⟨[], []⟩⟩],
    descriptionStr := str "d", fullInstructions := str "F" }

/-- Claim C3 is false on the code: a backend exception of a class outside
the caught ones (here `ValueError`) propagates out of dispatch instead of
being converted to an error string. -/
theorem claim_C3_counterexample :
    (executeToolCall badBackendEnv [exC3Skill] (str "t") (str "x")).2
      = .error { kind := .valueError, msg := str "boom" } := by
  decide

lemma loaderDispatch_no_raise (env : Env) (skills : List Skill) (n : PyStr)
    (hc : benignConnect env) :
    ∃ r, (loaderDispatch env skills n).2 = .ok r := by
  induction skills with
  | nil => exact ⟨_, rfl⟩
  | cons sk rest ih =>
    unfold loaderDispatch
    by_cases hn : sk.config.name = n
    · rw [if_pos hn]
      have hb : (connectServer env { sk with loaded := true }).2 = none :=
        connectServer_benign env _ (fun aft ts e he => hc _ aft ts e he)
      dsimp only
      rw [hb]
      exact ⟨_, rfl⟩
    · rw [if_neg hn]
      simpa using ih

lemma callToolMCP_no_raise (env : Env) (skills : List Skill) (n : PyStr) (a : Args)
    (hb : benignBackend env) :
    ∀ r, callToolMCP env skills n a = some r → ∃ s, r = .ok s := by
  induction skills with
  | nil => intro r h; exact Option.noConfusion h
  | cons sk rest ih =>
    intro r h
    unfold callToolMCP at h
    split at h
    · cases hbe : env.callBackend sk.config.name n a with
      | success content =>
        rw [hbe] at h
        simp only [Option.some.injEq] at h
        exact ⟨_, h.symm⟩
      | raised e =>
        rw [hbe] at h
        have := hb _ _ _ _ hbe
        simp only [this, if_true, Option.some.injEq] at h
        exact ⟨_, h.symm⟩
    · exact ih r h

lemma callTool_no_raise (env : Env) (skills : List Skill) (n : PyStr) (a : Args)
    (hc : benignConnect env) (hb : benignBackend env) :
    ∃ s, (callTool env skills n a).2 = .ok s := by
  unfold callTool
  by_cases hpre : skillPat.isPrefixOf n = true
  · rw [if_pos hpre]
    exact loaderDispatch_no_raise env skills _ hc
  · rw [if_neg hpre]
    cases hm : callToolMCP env skills n a with
    | none => exact ⟨_, rfl⟩
    | some r =>
      obtain ⟨s, hs⟩ := callToolMCP_no_raise env skills n a hb r hm
      exact ⟨s, by rw [hs]⟩

/-- The MCP branch on a registry in which the skills before `sk` fail the
loaded-connected-owns guard and `sk` passes it: the tool is invoked
through `sk`, and the outcome is the joined text content on success, the
`Error executing` string for a caught backend exception, and propagation
otherwise. -/
lemma callToolMCP_found (env : Env) (pre post : List Skill) (sk : Skill)
    (n : PyStr) (a : Args)
    (hpre : ∀ s2 ∈ pre,
      (s2.loaded && s2.session && s2.toolsCache.any (fun t => t.name = n)) = false)
    (hown : (sk.loaded && sk.session
      && sk.toolsCache.any (fun t => t.name = n)) = true) :
    callToolMCP env (pre ++ sk :: post) n a
      = some (match env.callBackend sk.config.name n a with
          | .success content => .ok (joinTextContent content)
          | .raised e =>
            if caughtByCallTool e.kind then
              .ok (str "Error executing " ++ n ++ str ": " ++ e.msg)
            else .error e) := by
  induction pre with
  | nil =>
    simp only [List.nil_append]
    unfold callToolMCP
    rw [if_pos hown]
    cases hbe : env.callBackend sk.config.name n a with
    | success content => simp [hbe]
    | raised e =>
      simp [hbe]
      split <;> rfl
  | cons p rest ih =>
    simp only [List.cons_append]
    unfold callToolMCP
    rw [hpre p (by simp)]
    simp only [Bool.false_eq_true, if_false]
    exact ih (fun s2 hs2 => hpre s2 (by simp [hs2]))

/-- Claim C3 (amended): dispatch never raises as long as every exception
that arises is of a caught class — unknown operation names and
unparseable argument text always yield an error string, and a backend
exception of a caught class (RuntimeError/KeyError) yields the
`Error executing <tool>: <message>` string; exceptions of other classes
propagate out of dispatch (see the counterexample). -/
theorem claim_C3_dispatch_safety_amended
    (env : Env) (skills : List Skill) (fnName fnArgsStr : PyStr)
    (hc : benignConnect env) (hb : benignBackend env) (hp : benignParse env) :
    (∃ s, (executeToolCall env skills fnName fnArgsStr).2 = .ok s)
    ∧ (∀ e, env.jsonParse fnArgsStr = .error e →
        (executeToolCall env skills fnName fnArgsStr).2 = .ok (str "Error: " ++ e.msg))
    ∧ (∀ fnArgs, env.jsonParse fnArgsStr = .ok fnArgs →
        skillPat.isPrefixOf fnName = false →
        callToolMCP env skills fnName fnArgs = none →
        (executeToolCall env skills fnName fnArgsStr).2
          = .ok (str "Error: Tool \x27" ++ fnName
              ++ str "\x27 not found or skill not loaded."))
    ∧ (∀ fnArgs pre post sk e,
        env.jsonParse fnArgsStr = .ok fnArgs →
        skillPat.isPrefixOf fnName = false →
        (∀ s2 ∈ pre, (s2.loaded && s2.session
          && s2.toolsCache.any (fun t => t.name = fnName)) = false) →
        (sk.loaded && sk.session
          && sk.toolsCache.any (fun t => t.name = fnName)) = true →
        env.callBackend sk.config.name fnName fnArgs = .raised e →
        (executeToolCall env (pre ++ sk :: post) fnName fnArgsStr).2
          = .ok (str "Error executing " ++ fnName ++ str ": " ++ e.msg)) := by
  refine ⟨?_, ?_, ?_, ?_⟩
  · unfold executeToolCall
    cases hjp : env.jsonParse fnArgsStr with
    | error e =>
      have := hp _ _ hjp
      simp [this]
    | ok args =>
      obtain ⟨s, hs⟩ := callTool_no_raise env skills fnName args hc hb
      have hpair : callTool env skills fnName args
          = ((callTool env skills fnName args).1, .ok s) := by
        rw [← hs]
      dsimp only
      rw [hpair]
      exact ⟨s, rfl⟩
  · intro e he
    unfold executeToolCall
    rw [he]
    simp [hp _ _ he]
  · intro args hok hpre hm
    unfold executeToolCall
    rw [hok]
    have hct : callTool env skills fnName args
        = (skills, .ok (str "Error: Tool \x27" ++ fnName
            ++ str "\x27 not found or skill not loaded.")) := by
      unfold callTool
      rw [if_neg (by rw [hpre]; exact Bool.false_ne_true), hm]
    dsimp only
    rw [hct]
  · intro fnArgs pre post sk e hjp hpf hpre2 hown hbe
    have hcaught : caughtByCallTool e.kind = true := hb _ _ _ _ hbe
    unfold executeToolCall
    rw [hjp]
    dsimp only
    have hct : callTool env (pre ++ sk :: post) fnName fnArgs
        = (pre ++ sk :: post,
           .ok (str "Error executing " ++ fnName ++ str ": " ++ e.msg)) := by
      unfold callTool
      rw [if_neg (by rw [hpf]; exact Bool.false_ne_true)]
      rw [callToolMCP_found env pre post sk fnName fnArgs hpre2 hown]
      rw [hbe]
      dsimp only
      rw [if_pos hcaught]
    rw [hct]

/-- An environment whose backend raises a `RuntimeError`, the class the
code's own test exercises for error handling. -/
def rtErrEnv : Env :=
  { connect := fun _ => .success [],
    callBackend := fun _ _ _ => .raised { kind := .runtimeError, msg := str "Tool error" },
    jsonParse := fun _ => .ok [] }

theorem claim_C3_dispatch_safety_amended_witness :
    benignConnect trivEnv ∧ benignBackend trivEnv ∧ benignParse trivEnv
    ∧ (executeToolCall trivEnv [] (str "frobnicate") (str "x")).2
        = .ok (str "Error: Tool \x27frobnicate\x27 not found or skill not loaded.")
    ∧ benignBackend rtErrEnv
    ∧ rtErrEnv.callBackend exC3Skill.config.name (str "t") []
        = .raised { kind := .runtimeError, msg := str "Tool error" }
    ∧ (executeToolCall rtErrEnv [exC3Skill] (str "t") (str "x")).2
        = .ok (str "Error executing t: Tool error") := by
  have hc : benignConnect trivEnv := fun n aft ts e he => ConnectOutcome.noConfusion he
  have hb : benignBackend trivEnv := fun sn tn a e he => CallOutcome.noConfusion he
  have hp : benignParse trivEnv := fun s e he => Except.noConfusion he
  have hc2 : benignConnect rtErrEnv := fun n aft ts e he => ConnectOutcome.noConfusion he
  have hb2 : benignBackend rtErrEnv := by
    intro sn tn a e he
    simp only [rtErrEnv, CallOutcome.raised.injEq] at he
    rw [← he]
    decide
  have hp2 : benignParse rtErrEnv := fun s e he => Except.noConfusion he
  refine ⟨hc, hb, hp,
    (claim_C3_dispatch_safety_amended trivEnv [] (str "frobnicate") (str "x")
      hc hb hp).2.2.1 [] rfl (by decide) rfl,
    hb2, rfl, ?_⟩
  have h4 := (claim_C3_dispatch_safety_amended rtErrEnv [exC3Skill] (str "t") (str "x")
    hc2 hb2 hp2).2.2.2 [] [] [] exC3Skill
    { kind := .runtimeError, msg := str "Tool error" }
    rfl (by decide) (by intro s2 hs2; cases hs2) (by decide) rfl
  simpa using h4

/-! ## Progressive disclosure (C1) -/

lemma connectServer_loaded (env : Env) (sk : Skill) :
    (connectServer env sk).1.loaded = sk.loaded :=
  (connectServer_preserves env sk).2.1

lemma connectServer_config (env : Env) (sk : Skill) :
    (connectServer env sk).1.config = sk.config :=
  (connectServer_preserves env sk).1

/-- Claim C1: whenever `list_tools` completes, the visible-operations
list is exactly the registry-ordered concatenation that takes, for each
unloaded skill, the single synthetic disclosure operation
`skill_<name>` with the empty parameter schema, and for each loaded
skill, exactly the entries of its operations cache — never both for the
same skill; loading state and names are unchanged by the walk. -/
theorem claim_C1_progressive_disclosure
    (env : Env) (skills skills2 : List Skill) (tools : List ToolDef)
    (h : listToolsSt env skills = (skills2, .ok tools)) :
    tools = (skills2.map (fun sk =>
        if sk.loaded then sk.toolsCache else [getLoaderToolDef sk])).flatten
    ∧ skills2.map Skill.loaded = skills.map Skill.loaded
    ∧ skills2.map (fun sk => sk.config.name) = skills.map (fun sk => sk.config.name)
    ∧ (∀ sk : Skill, (getLoaderToolDef sk).name = str "skill_" ++ sk.config.name
        ∧ (getLoaderToolDef sk).parameters = ⟨[], []⟩) := by
  induction skills generalizing skills2 tools with
  | nil =>
    unfold listToolsSt at h
    simp only [Prod.mk.injEq] at h
    obtain ⟨h1, h2⟩ := h
    simp only [Except.ok.injEq] at h2
    subst h1
    subst h2
    exact ⟨rfl, rfl, rfl, fun sk => ⟨rfl, rfl⟩⟩
  | cons sk rest ih =>
    unfold listToolsSt at h
    by_cases hl : sk.loaded = true
    · rw [if_neg (show ¬((!sk.loaded) = true) by rw [hl]; decide)] at h
      dsimp only at h
      cases hsess : sk.session
      · rw [if_pos (show (!sk.session) = true by rw [hsess]; rfl)] at h
        cases hc2 : (connectServer env sk).2 with
        | some e =>
          rw [hc2] at h
          simp at h
        | none =>
          rw [hc2] at h
          dsimp only at h
          cases hres : (listToolsSt env rest).2 with
          | error e =>
            rw [hres] at h
            simp [Except.map] at h
          | ok ts =>
            rw [hres] at h
            simp only [Except.map, Prod.mk.injEq, Except.ok.injEq] at h
            obtain ⟨h1, h2⟩ := h
            subst h1
            subst h2
            obtain ⟨ih1, ih2, ih3, _⟩ := ih _ ts (by rw [← hres])
            refine ⟨?_, ?_, ?_, fun sk2 => ⟨rfl, rfl⟩⟩
            · simp [connectServer_loaded, hl, ih1]
            · simp [connectServer_loaded, hl, ih2]
            · simp [connectServer_config, ih3]
      · rw [if_neg (show ¬((!sk.session) = true) by rw [hsess]; decide)] at h
        dsimp only at h
        cases hres : (listToolsSt env rest).2 with
        | error e =>
          rw [hres] at h
          simp [Except.map] at h
        | ok ts =>
          rw [hres] at h
          simp only [Except.map, Prod.mk.injEq, Except.ok.injEq] at h
          obtain ⟨h1, h2⟩ := h
          subst h1
          subst h2
          obtain ⟨ih1, ih2, ih3, _⟩ := ih _ ts (by rw [← hres])
          refine ⟨?_, ?_, ?_, fun sk2 => ⟨rfl, rfl⟩⟩
          · simp [hl, ih1]
          · simp [hl, ih2]
          · simp [ih3]
    · have hl2 : sk.loaded = false := by simpa using hl
      rw [if_pos (show (!sk.loaded) = true by rw [hl2]; rfl)] at h
      dsimp only at h
      cases hres : (listToolsSt env rest).2 with
      | error e =>
        rw [hres] at h
        simp [Except.map] at h
      | ok ts =>
        rw [hres] at h
        simp only [Except.map, Prod.mk.injEq, Except.ok.injEq] at h
        obtain ⟨h1, h2⟩ := h
        subst h1
        subst h2
        obtain ⟨ih1, ih2, ih3, _⟩ := ih _ ts (by rw [← hres])
        refine ⟨?_, ?_, ?_, fun sk2 => ⟨rfl, rfl⟩⟩
        · simp [hl2, ih1]
        · simp [hl2, ih2]
        · simp [ih3]

def exC1Unloaded : Skill :=
  { config := { name := str "u", command := str "c", args := [] },
    loaded := false, session := false, toolsCache := [],
    descriptionStr := str "du", fullInstructions := str "doc text for u" }

def exC1Loaded : Skill :=
  { config := { name := str "v", command := str "c", args := [] },
    loaded := true, session := true,
    toolsCache := [⟨str "t2", str "d2", ⟨[], []⟩⟩],
    descriptionStr := str "dv", fullInstructions := str "doc text for v" }

theorem claim_C1_progressive_disclosure_witness :
    listToolsSt trivEnv [exC1Unloaded, exC1Loaded]
      = ([exC1Unloaded, exC1Loaded],
         .ok (getLoaderToolDef exC1Unloaded :: exC1Loaded.toolsCache))
    ∧ ([exC1Unloaded, exC1Loaded].map (fun sk =>
        if sk.loaded then sk.toolsCache else [getLoaderToolDef sk])).flatten
      = getLoaderToolDef exC1Unloaded :: exC1Loaded.toolsCache := by
  refine ⟨by decide, ?_⟩
  exact (claim_C1_progressive_disclosure trivEnv [exC1Unloaded, exC1Loaded]
    [exC1Unloaded, exC1Loaded]
    (getLoaderToolDef exC1Unloaded :: exC1Loaded.toolsCache) (by decide)).1.symm

/-! ## Streaming reassembly (C4, C10) -/

lemma processFrag_some_noId (completed : List ToolInvocation) (c : ToolInvocation)
    (f : ToolCallFrag) (h : f.id.isEmpty = true) :
    processFrag (completed, some c) f
      = some (completed, some { c with args := c.args ++ f.args }) := by
  unfold processFrag
  rw [if_pos h]
  by_cases ha : f.args.isEmpty = true
  · rw [if_pos ha]
    have : f.args = [] := by
      cases hf : f.args
      · rfl
      · rw [hf] at ha; cases ha
    rw [this]
    cases c
    simp
  · rw [if_neg ha]

lemma processFrag_some_id (completed : List ToolInvocation) (c : ToolInvocation)
    (f : ToolCallFrag) (h : ¬ f.id.isEmpty = true) :
    processFrag (completed, some c) f
      = some (completed ++ [c], some { id := f.id, name := f.name, args := f.args }) := by
  unfold processFrag
  rw [if_neg h]
  by_cases ha : f.args.isEmpty = true
  · rw [if_pos ha]
    have : f.args = [] := by
      cases hf : f.args
      · rfl
      · rw [hf] at ha; cases ha
    rw [this]
  · rw [if_neg ha]
    rfl

lemma processFrag_none_id (completed : List ToolInvocation)
    (f : ToolCallFrag) (h : ¬ f.id.isEmpty = true) :
    processFrag (completed, none) f
      = some (completed, some { id := f.id, name := f.name, args := f.args }) := by
  unfold processFrag
  rw [if_neg h]
  by_cases ha : f.args.isEmpty = true
  · rw [if_pos ha]
    have : f.args = [] := by
      cases hf : f.args
      · rfl
      · rw [hf] at ha; cases ha
    rw [this]
  · rw [if_neg ha]
    rfl

lemma processFrag_none_noId_noArgs (completed : List ToolInvocation)
    (f : ToolCallFrag) (hid : f.id.isEmpty = true) (ha : f.args.isEmpty = true) :
    processFrag (completed, none) f = some (completed, none) := by
  unfold processFrag
  rw [if_pos hid, if_pos ha]

lemma bind_some_sealPair (m : Option (List ToolInvocation × Option ToolInvocation)) :
    (do let p ← m; some (sealPair p)) = m.map sealPair := by
  cases m <;> rfl

/-- Running the fragment fold from an open in-flight invocation `c`: the
leading id-less fragments extend the argument text of `c`, the rest of
the stream regroups as specified, and sealing appends everything after
`completed`. -/
lemma foldlM_processFrag_some (frags : List ToolCallFrag) :
    ∀ (completed : List ToolInvocation) (c : ToolInvocation),
    (frags.foldlM processFrag (completed, some c)).map sealPair
      = some (completed
          ++ ({ c with args := c.args
                ++ ((frags.takeWhile noId).map ToolCallFrag.args).flatten }
              :: groupFrags (frags.dropWhile noId))) := by
  induction frags with
  | nil =>
    intro completed c
    cases c
    simp [sealPair, groupFrags, List.foldlM]
  | cons f fs ih =>
    intro completed c
    by_cases hid : f.id.isEmpty = true
    · rw [List.foldlM_cons, processFrag_some_noId completed c f hid]
      show ((fs.foldlM processFrag (completed, some _)).map sealPair) = _
      rw [ih completed { c with args := c.args ++ f.args },
        List.takeWhile_cons_of_pos (show noId f = true from hid),
        List.dropWhile_cons_of_pos (show noId f = true from hid)]
      simp [List.append_assoc]
    · rw [List.foldlM_cons, processFrag_some_id completed c f hid]
      show ((fs.foldlM processFrag (completed ++ [c], some _)).map sealPair) = _
      rw [ih (completed ++ [c]) { id := f.id, name := f.name, args := f.args },
        List.takeWhile_cons_of_neg (show ¬ noId f = true from hid)]
      rw [show (f :: fs).dropWhile noId = f :: fs from
        List.dropWhile_cons_of_neg (show ¬ noId f = true from hid)]
      rw [show groupFrags (f :: fs)
          = { id := f.id, name := f.name,
              args := f.args ++ ((fs.takeWhile noId).map ToolCallFrag.args).flatten }
            :: groupFrags (fs.dropWhile noId) by
        rw [groupFrags]
        rw [if_neg (show ¬ noId f = true from hid)]]
      cases c
      simp

/-- Fragment-level reassembly agrees with the specified grouping on every
well-formed fragment sequence. -/
lemma reassembleFrags_wellFormed (frags : List ToolCallFrag)
    (h : wellFormedFrags frags) :
    reassembleFrags frags = some (groupFrags frags) := by
  induction frags with
  | nil => simp [reassembleFrags, groupFrags, sealPair, List.foldlM]
  | cons f fs ih =>
    by_cases hid : f.id.isEmpty = true
    · have hargs : f.args = [] := by
        apply h f
        rw [List.takeWhile_cons_of_pos (show noId f = true from hid)]
        exact List.mem_cons_self f _
      unfold reassembleFrags
      rw [List.foldlM_cons,
        processFrag_none_noId_noArgs [] f hid (by rw [hargs]; rfl)]
      have hfs : wellFormedFrags fs := by
        intro g hg
        apply h g
        rw [List.takeWhile_cons_of_pos (show noId f = true from hid)]
        exact List.mem_cons_of_mem f hg
      have hgroup : groupFrags (f :: fs) = groupFrags fs := by
        rw [groupFrags]
        rw [if_pos (show noId f = true from hid)]
      rw [hgroup]
      exact ih hfs
    · unfold reassembleFrags
      rw [List.foldlM_cons, processFrag_none_id [] f hid, bind_some_sealPair]
      show ((fs.foldlM processFrag
        ([], some { id := f.id, name := f.name, args := f.args })).map sealPair)
          = some (groupFrags (f :: fs))
      rw [foldlM_processFrag_some fs [] { id := f.id, name := f.name, args := f.args }]
      rw [show groupFrags (f :: fs)
          = { id := f.id, name := f.name,
              args := f.args ++ ((fs.takeWhile noId).map ToolCallFrag.args).flatten }
            :: groupFrags (fs.dropWhile noId) by
        rw [groupFrags]
        rw [if_neg (show ¬ noId f = true from hid)]]
      simp

/-- The chunk loop is the fragment fold over the flattened fragment
sequence, as far as the tool-call components are concerned. -/
lemma foldlM_processChunk_pair (chunks : List Delta) :
    ∀ (st : StreamAcc),
    (chunks.foldlM processChunk st).map (fun s => (s.completed, s.current))
      = (flatFrags chunks).foldlM processFrag (st.completed, st.current) := by
  induction chunks with
  | nil => intro st; rfl
  | cons ch rest ih =>
    intro st
    rw [List.foldlM_cons,
      show flatFrags (ch :: rest) = ch.toolCalls ++ flatFrags rest by
        simp [flatFrags]]
    rw [List.foldlM_append]
    cases hp : ch.toolCalls.foldlM processFrag (st.completed, st.current) with
    | none =>
      simp only [processChunk, hp, Option.bind_none]
      rfl
    | some p =>
      simp only [processChunk, hp, Option.bind_some]
      have := ih ⟨st.reasoning ++ ch.reasoning, st.content ++ ch.content, p.1, p.2⟩
      simpa using this

lemma runStream_toolCalls (chunks : List Delta) :
    (runStream chunks).map (fun r => r.2.2) = reassembleFrags (flatFrags chunks) := by
  have hlink := foldlM_processChunk_pair chunks ⟨[], [], [], none⟩
  unfold runStream reassembleFrags
  cases hf : chunks.foldlM processChunk ⟨[], [], [], none⟩ with
  | none =>
    rw [hf] at hlink
    rw [← hlink]
    rfl
  | some st =>
    rw [hf] at hlink
    rw [← hlink]
    rfl

/-- Claim C4 (amended): for every delta stream in which every tool-call
fragment carrying only argument text is preceded by some fragment
carrying an invocation id, reassembly completes and yields exactly one
`ToolInvocation` per id-carrying fragment, in arrival order, whose
argument text is that fragment's argument text followed by the argument
text of the id-less fragments up to the next id-carrying fragment or
stream end; the invocation still open at stream end is sealed. -/
theorem claim_C4_streaming_reassembly (chunks : List Delta)
    (h : wellFormedFrags (flatFrags chunks)) :
    (runStream chunks).map (fun r => r.2.2)
      = some (groupFrags (flatFrags chunks)) := by
  rw [runStream_toolCalls]
  exact reassembleFrags_wellFormed _ h

/-- Claim C4 as stated is false on the code: a stream whose single
tool-call fragment carries only argument text satisfies the stated
precondition (each fragment carries a fresh id or only argument text) and
should reassemble to the empty record list, but the code raises instead
(subscripting the absent in-flight invocation). -/
theorem claim_C4_counterexample :
    reassembleFrags [{ id := [], name := [], args := str "x" }] = none
    ∧ groupFrags [{ id := [], name := [], args := str "x" }] = [] := by
  constructor
  · decide
  · rw [groupFrags]
    rw [if_pos (by decide)]
    rw [groupFrags]

def exC4Stream : List Delta :=
  [{ reasoning := str "r", content := [],
     toolCalls := [{ id := str "id1", name := str "f", args := str "a" }] },
   { reasoning := [], content := str "chat",
     toolCalls := [{ id := [], name := [], args := str "b" },
                   { id := [], name := [], args := str "c" },
                   { id := str "id2", name := str "g", args := [] },
                   { id := [], name := [], args := str "d" }] }]

theorem claim_C4_streaming_reassembly_witness :
    wellFormedFrags (flatFrags exC4Stream)
    ∧ (runStream exC4Stream).map (fun r => r.2.2)
        = some (groupFrags (flatFrags exC4Stream))
    ∧ groupFrags (flatFrags exC4Stream)
        = [{ id := str "id1", name := str "f", args := str "abc" },
           { id := str "id2", name := str "g", args := str "d" }] := by
  have ha := claim_C4_streaming_reassembly exC4Stream (by decide)
  have hb : (runStream exC4Stream).map (fun r => r.2.2)
      = some [{ id := str "id1", name := str "f", args := str "abc" },
              { id := str "id2", name := str "g", args := str "d" }] := by
    decide
  refine ⟨by decide, ha, ?_⟩
  rw [ha] at hb
  exact Option.some.inj hb

/-- Claim C10: stream reassembly is total only when every argument-only
fragment is preceded by some id-carrying fragment — a stream whose first
tool-call fragment carries argument text and no id makes the turn-loop
reassembly raise (modelled by `none`) instead of producing records, and
under the precondition reassembly always completes. -/
theorem claim_C10_reassembly_crash :
    runStream [{ reasoning := [], content := [],
                 toolCalls := [{ id := [], name := [], args := str "x" }] }] = none
    ∧ ∀ chunks : List Delta, wellFormedFrags (flatFrags chunks)
        → (runStream chunks).isSome = true := by
  constructor
  · decide
  · intro chunks h
    have h2 := runStream_toolCalls chunks
    rw [reassembleFrags_wellFormed _ h] at h2
    cases hr : runStream chunks with
    | none => rw [hr] at h2; cases h2
    | some r => rfl

theorem claim_C10_reassembly_crash_witness :
    wellFormedFrags (flatFrags exC4Stream)
    ∧ (runStream exC4Stream).isSome = true := by
  exact ⟨by decide, claim_C10_reassembly_crash.2 exC4Stream (by decide)⟩

/-! ## Iteration cap (C8) -/

lemma runTurnAux_cap (env : Env) (respond : Nat → List Delta)
    (summarizeAt : Nat → PyStr → Except PyExc PyStr)
    (iter : Nat) (skills : List Skill) (msgs : List Msg)
    (h : iter ≥ MAX_TOOL_ITERATIONS) :
    runTurnAux env respond summarizeAt iter skills msgs
      = { messages := msgs, skills := skills, rounds := 0, modelCalls := 0 } := by
  unfold runTurnAux
  rw [dif_pos h]

lemma runTurnAux_bounds (env : Env) (respond : Nat → List Delta)
    (summarizeAt : Nat → PyStr → Except PyExc PyStr) :
    ∀ (fuel iter : Nat), MAX_TOOL_ITERATIONS - iter ≤ fuel →
    ∀ (skills : List Skill) (msgs : List Msg),
    (runTurnAux env respond summarizeAt iter skills msgs).rounds
        ≤ MAX_TOOL_ITERATIONS - iter
    ∧ (runTurnAux env respond summarizeAt iter skills msgs).modelCalls
        ≤ MAX_TOOL_ITERATIONS - iter := by
  intro fuel
  induction fuel with
  | zero =>
    intro iter hle skills msgs
    have hge : iter ≥ MAX_TOOL_ITERATIONS := by omega
    rw [runTurnAux_cap env respond summarizeAt iter skills msgs hge]
    simp
  | succ n ih =>
    intro iter hle skills msgs
    by_cases hge : iter ≥ MAX_TOOL_ITERATIONS
    · rw [runTurnAux_cap env respond summarizeAt iter skills msgs hge]
      simp
    · have hpos : 1 ≤ MAX_TOOL_ITERATIONS - iter := by omega
      unfold runTurnAux
      rw [dif_neg hge]
      dsimp only
      cases hcc : (condenseContext (summarizeAt iter) msgs).2 with
      | some e => simp
      | none =>
        cases hlt : (listToolsSt env skills).2 with
        | error e => simp
        | ok tools =>
          cases hrs : runStream (respond iter) with
          | none =>
            dsimp only
            exact ⟨by omega, hpos⟩
          | some r =>
            obtain ⟨ra, rb, rc⟩ := r
            dsimp only
            by_cases htc : rc = []
            · rw [if_pos htc]
              refine ⟨?_, ?_⟩
              · dsimp only
                omega
              · dsimp only
                omega
            · rw [if_neg htc]
              cases hex : execToolCalls env (listToolsSt env skills).1
                ((condenseContext (summarizeAt iter) msgs).1
                  ++ [assistantMsg ra rb rc]) rc with
              | mk sks2 rest2 =>
                obtain ⟨msgs3, ab⟩ := rest2
                cases ab with
                | true =>
                  dsimp only
                  exact ⟨hpos, hpos⟩
                | false =>
                  simp only [Bool.false_eq_true, if_false]
                  obtain ⟨hr, hm⟩ := ih (iter + 1) (by omega) sks2 msgs3
                  refine ⟨?_, ?_⟩
                  · dsimp only
                    omega
                  · dsimp only
                    omega

/-- Claim C8: the inner tool-calling loop performs at most
`MAX_TOOL_ITERATIONS = 1000` tool-dispatch round-trips per user turn;
once the iteration counter reaches the cap the loop terminates without
issuing another model call and leaves the transcript exactly as it was
(no rollback).  Termination itself is witnessed by `runTurnAux` being a
total function of the per-iteration stream and dispatch oracles. -/
theorem claim_C8_iteration_cap (env : Env) (respond : Nat → List Delta)
    (summarizeAt : Nat → PyStr → Except PyExc PyStr)
    (iter : Nat) (skills : List Skill) (msgs : List Msg) :
    (runTurnAux env respond summarizeAt iter skills msgs).rounds
        ≤ MAX_TOOL_ITERATIONS - iter
    ∧ (runTurnAux env respond summarizeAt iter skills msgs).modelCalls
        ≤ MAX_TOOL_ITERATIONS - iter
    ∧ (iter ≥ MAX_TOOL_ITERATIONS →
        runTurnAux env respond summarizeAt iter skills msgs
          = { messages := msgs, skills := skills, rounds := 0, modelCalls := 0 })
    ∧ (runTurn env respond summarizeAt skills msgs).rounds ≤ MAX_TOOL_ITERATIONS := by
  obtain ⟨h1, h2⟩ := runTurnAux_bounds env respond summarizeAt
    (MAX_TOOL_ITERATIONS - iter) iter le_rfl skills msgs
  refine ⟨h1, h2,
    fun h => runTurnAux_cap env respond summarizeAt iter skills msgs h, ?_⟩
  obtain ⟨h3, _⟩ := runTurnAux_bounds env respond summarizeAt
    MAX_TOOL_ITERATIONS 0 (by omega) skills msgs
  unfold runTurn
  exact le_trans h3 (by omega)

theorem claim_C8_iteration_cap_witness :
    1000 ≥ MAX_TOOL_ITERATIONS
    ∧ runTurnAux trivEnv (fun _ => []) (fun _ _ => .ok []) 1000 [] []
        = { messages := [], skills := [], rounds := 0, modelCalls := 0 } := by
  refine ⟨by decide, ?_⟩
  exact (claim_C8_iteration_cap trivEnv (fun _ => []) (fun _ _ => .ok [])
    1000 [] []).2.2.1 (by decide)

end AgentDs
